import Mathlib

/-!
Shallow embedding of the CREATE2 vanity-address search engine
(`src/main.rs`, `src/search.rs`, `src/utils.rs`).

Modelling conventions:

* Machine integers are `Nat` with explicit reductions: `u128` values are
  reduced modulo `U128_MOD` where the source can wrap, `U256` values modulo
  `U256_MOD`.  The `uint` crate's `U256` addition panics on overflow, so the
  theorems about salt arithmetic carry explicit no-overflow hypotheses; the
  `u128` counters use Rust release-mode wrapping semantics.
* The CREATE2 derivation `get_create2_address_from_hash` is an external pure
  function (ethers-core) of deployer, salt and init-code hash; it is
  abstracted as a parameter `derive : Nat → Nat → Nat → Nat`.  The salt is
  passed to it as the number encoded by `bytes32(salt_n)`, which is injective
  on the 256-bit salt domain.  Addresses are 20-byte values compared as
  big-endian unsigned integers, exactly the lexicographic byte order `Ord`
  of `H160`.
* Logging is modelled by the data that determines each log line; the
  `Mutex`-guarded shared state is modelled by explicit state passing, with
  the update that the source performs under the lock as a pure state
  transformer.
-/

set_option maxRecDepth 8000

/-- 2^128, the modulus of Rust `u128` arithmetic. -/
def U128_MOD : Nat := 2 ^ 128

/-- 2^256, the modulus of `U256` arithmetic. -/
def U256_MOD : Nat := 2 ^ 256

/-- `AddressSalt` (both `src/search.rs` and `src/main.rs`): a derived
address (20 bytes, compared as a big-endian unsigned integer) together with
the salt that produced it. -/
structure AddressSalt where
  address : Nat
  salt_n : Nat
  deriving DecidableEq

/-- `SearchParams` of `src/search.rs`. -/
structure SearchParams where
  deployer : Nat
  initial_salt_n : Nat
  init_code_hash : Nat
  round_size : Nat
  num_rounds : Nat
  deriving DecidableEq

/-- `SearchParams` of `src/main.rs` (the duplicated engine variant), whose
per-round block size field is called `limit`. -/
structure MainSearchParams where
  deployer : Nat
  initial_salt_n : Nat
  init_code_hash : Nat
  limit : Nat
  deriving DecidableEq

/-- The scanning loop shared verbatim by `Searcher::search_create2_addresses`
(`src/search.rs` lines 151-159) and `search_create2_addresses`
(`src/main.rs` lines 89-97): `k` iterations of
`salt_n += 1; address = derive(…); if address < best.address { best = … }`.
The increment is `U256` arithmetic. -/
def scanLoop (derive : Nat → Nat → Nat → Nat) (deployer init_code_hash : Nat) :
    Nat → Nat → AddressSalt → AddressSalt
  | _, 0, best => best
  | salt_n, k + 1, best =>
    let salt_n' := (salt_n + 1) % U256_MOD
    let address := derive deployer salt_n' init_code_hash
    scanLoop derive deployer init_code_hash salt_n' k
      (if address < best.address then { address := address, salt_n := salt_n' } else best)

/-- The successive salts at which the loop of `scanLoop` invokes the address
deriver.  The loop is straight-line code, so the sequence of `derive` calls
is a pure function of the starting salt and the iteration count; this
definition records it. -/
def scanLoopSalts : Nat → Nat → List Nat
  | _, 0 => []
  | salt_n, k + 1 =>
    let salt_n' := (salt_n + 1) % U256_MOD
    salt_n' :: scanLoopSalts salt_n' k

/-- Loop iteration count of `Searcher::search_create2_addresses`: the source
computes `round_size - 1` in `u128` (`for _i in 0..*round_size - 1`).
Release-mode Rust wraps on underflow, so `round_size = 0` yields `2^128 - 1`
iterations (a debug build panics on the subtraction instead). -/
def scanIterCount (round_size : Nat) : Nat :=
  (round_size + (U128_MOD - 1)) % U128_MOD

/-- `Searcher::search_create2_addresses` (`src/search.rs` lines 128-161):
derives the address of the starting salt, then runs `round_size - 1` more
iterations, keeping the smallest address seen (strict improvement only, so
the first candidate wins ties). -/
def search_create2_addresses (derive : Nat → Nat → Nat → Nat)
    (params : SearchParams) : AddressSalt :=
  let salt_n := params.initial_salt_n
  let address := derive params.deployer salt_n params.init_code_hash
  let best : AddressSalt := { address := address, salt_n := salt_n }
  scanLoop derive params.deployer params.init_code_hash salt_n
    (scanIterCount params.round_size) best

/-- `search_create2_addresses` (`src/main.rs` lines 67-99): identical to the
`search.rs` scanner except that the loop runs `limit` times
(`for _i in 0..*limit`), so this variant derives `limit + 1` addresses. -/
def main_search_create2_addresses (derive : Nat → Nat → Nat → Nat)
    (params : MainSearchParams) : AddressSalt :=
  let salt_n := params.initial_salt_n
  let address := derive params.deployer salt_n params.init_code_hash
  let best : AddressSalt := { address := address, salt_n := salt_n }
  scanLoop derive params.deployer params.init_code_hash salt_n params.limit best

/-- All salts whose address the `search.rs` scanner derives: the starting
salt (evaluated before the loop) followed by the loop's salts. -/
def search_scan_salts (initial_salt_n round_size : Nat) : List Nat :=
  initial_salt_n :: scanLoopSalts initial_salt_n (scanIterCount round_size)

/-- All salts whose address the `main.rs` scanner derives. -/
def main_scan_salts (initial_salt_n limit : Nat) : List Nat :=
  initial_salt_n :: scanLoopSalts initial_salt_n limit

/-- The candidates inspected by the `search.rs` scanner, in evaluation
order (salt plus its derived address). -/
def scanCands (derive : Nat → Nat → Nat → Nat)
    (deployer init_code_hash initial_salt_n round_size : Nat) : List AddressSalt :=
  (search_scan_salts initial_salt_n round_size).map
    (fun s => { address := derive deployer s init_code_hash, salt_n := s })

/-- One step of keeping the best candidate (a strictly smaller address wins,
ties keep the incumbent) — the `if address < best.address` update of both
scanners. -/
def pickBest (best c : AddressSalt) : AddressSalt :=
  if c.address < best.address then c else best

/-- The shared state of `Searcher` (`src/search.rs` lines 29-34): the
`Mutex`-guarded optional best candidate and the two cumulative `u128`
counters. -/
structure SearcherState where
  best : Option AddressSalt
  total_attempts : Nat
  total_rounds : Nat
  deriving DecidableEq

/-- `Searcher::new` (`src/search.rs` lines 37-54): empty best, zero
counters.  (Thread-pool construction is I/O and not modelled.) -/
def Searcher.new : SearcherState :=
  { best := none, total_attempts := 0, total_rounds := 0 }

/-- The best-update performed under the lock in `Searcher::search_round`
(`src/search.rs` line 104):
`if best_mutex.is_none() || round_best.address < best_mutex.unwrap().address`. -/
def updateBest (best : Option AddressSalt) (round_best : AddressSalt) : Option AddressSalt :=
  match best with
  | none => some round_best
  | some b => if round_best.address < b.address then some round_best else some b

/-- The complete fold `Searcher::search_round` performs under the lock
(`src/search.rs` lines 96-110): bump `total_rounds` by one, add `round_size`
to `total_attempts` (u128, release-mode wrapping), update the best. -/
def foldRound (st : SearcherState) (round_size : Nat) (round_best : AddressSalt) : SearcherState :=
  { best := updateBest st.best round_best,
    total_attempts := (st.total_attempts + round_size) % U128_MOD,
    total_rounds := (st.total_rounds + 1) % U128_MOD }

/-- `initial_salt_n + U256::from(round_size) * U256::from(round)`
(`src/search.rs` lines 83-84, `src/main.rs` lines 118-119).  The product of
two `u128` values always fits in a `U256`; the addition is reduced mod 2^256
(the `uint` crate actually panics on overflow, so the theorems about this
value restrict to the non-overflowing range). -/
def round_salt_n (initial_salt_n round_size round : Nat) : Nat :=
  (initial_salt_n + round_size * round) % U256_MOD

/-- `Searcher::search_round` (`src/search.rs` lines 69-119) as a state
transformer: compute the round's starting salt, scan the block, fold the
round's best into the shared state.  Returns the new shared state and the
round's best (the source's return value). -/
def Searcher.search_round (derive : Nat → Nat → Nat → Nat) (initial_params : SearchParams)
    (round : Nat) (st : SearcherState) : SearcherState × AddressSalt :=
  let round_salt := round_salt_n initial_params.initial_salt_n initial_params.round_size round
  let params : SearchParams := { initial_params with initial_salt_n := round_salt }
  let round_best := search_create2_addresses derive params
  (foldRound st initial_params.round_size round_best, round_best)

/-- The salts scanned by round `round` of the `search.rs` engine. -/
def search_round_salts (p : SearchParams) (round : Nat) : List Nat :=
  search_scan_salts (round_salt_n p.initial_salt_n p.round_size round) p.round_size

/-- The salts scanned by round `round` of the `main.rs` engine. -/
def main_search_round_salts (p : MainSearchParams) (round : Nat) : List Nat :=
  main_scan_salts (round_salt_n p.initial_salt_n p.limit round) p.limit

/-- `Searcher::search` (`src/search.rs` lines 56-67): runs rounds
`0 .. num_rounds` and then unwraps the final best.  Rayon dispatches the
rounds in an arbitrary order; the sequential order is used here, and the
order-independence of the fold is settled separately (claim C2).  The final
`the_best.unwrap()` is modelled by returning the optional best: `none`
models the panic of `unwrap` on an empty best. -/
def Searcher.search (derive : Nat → Nat → Nat → Nat) (params : SearchParams) :
    SearcherState × Option AddressSalt :=
  let final := (List.range params.num_rounds).foldl
    (fun st round => (Searcher.search_round derive params round st).1) Searcher.new
  (final, final.best)

/-- Shared state of the `main.rs` engine variant: the best is seeded by the
bootstrap scan (never optional), plus the two `Mutex<u128>` counters. -/
structure MainState where
  best : AddressSalt
  total_attempts : Nat
  total_rounds : Nat
  deriving DecidableEq

/-- `search_round` (`src/main.rs` lines 101-154): same fold as the
`search.rs` variant except that the best is not optional and `round_size`
is the `limit` field. -/
def main_search_round (derive : Nat → Nat → Nat → Nat) (initial_params : MainSearchParams)
    (round : Nat) (st : MainState) : MainState × AddressSalt :=
  let round_salt := round_salt_n initial_params.initial_salt_n initial_params.limit round
  let params : MainSearchParams := { initial_params with initial_salt_n := round_salt }
  let round_best := main_search_create2_addresses derive params
  let the_best := if round_best.address < st.best.address then round_best else st.best
  ({ best := the_best,
     total_attempts := (st.total_attempts + initial_params.limit) % U128_MOD,
     total_rounds := (st.total_rounds + 1) % U128_MOD }, round_best)

/-- The run performed by `main()` (`src/main.rs` lines 276-292): a bootstrap
scan at the initial salt seeds the best, `total_attempts` is seeded to `1`
and `total_rounds` to `0` (lines 279-281), then `num_rounds` rounds are
folded in. -/
def main_run (derive : Nat → Nat → Nat → Nat) (params : MainSearchParams)
    (num_rounds : Nat) : MainState :=
  let first := main_search_create2_addresses derive params
  let st0 : MainState := { best := first, total_attempts := 1, total_rounds := 0 }
  (List.range num_rounds).foldl
    (fun st round => (main_search_round derive params round st).1) st0

/-- Helper for `count_leading_zeroes`: the number of leading zero hex digits
among the digits of `address` at positions `k-1, …, 0` (most significant
first), stopping at the first nonzero digit — the `break`ing char loop of
`src/utils.rs` lines 27-33. -/
def clzAux (address : Nat) : Nat → Nat
  | 0 => 0
  | k + 1 => if address / 16 ^ k % 16 = 0 then 1 + clzAux address k else 0

/-- `count_leading_zeroes` (`src/utils.rs` lines 25-35): the `Debug`
rendering of an `H160` is `0x` followed by exactly 40 lowercase hex digits,
so after `skip(2)` the loop counts the leading zero nibbles of the 160-bit
address. -/
def count_leading_zeroes (address : Nat) : Nat := clzAux address 40

/-- `fmt_dms` (`src/utils.rs` lines 46-52). -/
def fmt_dms (seconds : Nat) : String :=
  let days := seconds / 86400
  let hours := seconds % 86400 / 3600
  let minutes := seconds % 3600 / 60
  let seconds := seconds % 60
  toString days ++ "d" ++ toString hours ++ "h" ++ toString minutes ++ "m" ++
    toString seconds ++ "s"

/-- The data determining one progress line of `log_attempts`: the printed
rate and countdown are functions of these four integers (their f64
rendering itself is not modelled). -/
structure ProgressReport where
  round : Nat
  attempt : Nat
  elapsed_ms : Nat
  best_zeros : Nat
  deriving DecidableEq

/-- `log_attempts` (`src/search.rs` lines 174-190, `src/main.rs` lines
12-28): returns early — emitting nothing — when the elapsed duration
rounds to `0` milliseconds, otherwise emits one progress report. -/
def log_attempts (round attempt elapsed_ms best_zeros : Nat) : Option ProgressReport :=
  if elapsed_ms = 0 then none
  else some { round := round, attempt := attempt, elapsed_ms := elapsed_ms,
              best_zeros := best_zeros }

/-- Address projection of the shared best, the quantity the fold minimises. -/
def bestAddress (st : SearcherState) : Option Nat :=
  st.best.map AddressSalt.address

/-- Equality of the order-independent part of the shared state: counters and
the address of the best (the best's salt may differ). -/
def stateEquiv (s₁ s₂ : SearcherState) : Prop :=
  bestAddress s₁ = bestAddress s₂ ∧
  s₁.total_attempts = s₂.total_attempts ∧
  s₁.total_rounds = s₂.total_rounds

theorem stateEquiv_refl (s : SearcherState) : stateEquiv s s := ⟨rfl, rfl, rfl⟩

theorem stateEquiv_trans {s₁ s₂ s₃ : SearcherState}
    (h₁ : stateEquiv s₁ s₂) (h₂ : stateEquiv s₂ s₃) : stateEquiv s₁ s₃ :=
  ⟨h₁.1.trans h₂.1, h₁.2.1.trans h₂.2.1, h₁.2.2.trans h₂.2.2⟩

/-! ### Basic facts about the scanning trace -/

theorem scanLoopSalts_length : ∀ (k s : Nat), (scanLoopSalts s k).length = k := by
  intro k
  induction k with
  | zero => intro s; rfl
  | succ k ih => intro s; simp [scanLoopSalts, ih]

theorem scanIterCount_zero : scanIterCount 0 = U128_MOD - 1 := by
  have h0 : 0 < U128_MOD := by norm_num [U128_MOD]
  show (0 + (U128_MOD - 1)) % U128_MOD = U128_MOD - 1
  rw [Nat.zero_add, Nat.mod_eq_of_lt (by omega)]

theorem scanIterCount_of_pos (rs : Nat) (h1 : 1 ≤ rs) (h2 : rs < U128_MOD) :
    scanIterCount rs = rs - 1 := by
  have he : rs + (U128_MOD - 1) = U128_MOD + (rs - 1) := by
    have : 0 < U128_MOD := by norm_num [U128_MOD]
    omega
  rw [scanIterCount, he, Nat.add_mod_left, Nat.mod_eq_of_lt (by omega)]

/-- Claim C6: the spec requires that `round_size = 0` evaluate no hashes and
not crash.  The code violates this: the `search.rs` scanner's loop bound
`round_size - 1` underflows in `u128` (panicking in a debug build), so in a
release build the scanner visits `2^128` salts, and even the `main.rs`
variant — whose loop bound `limit` does not underflow — still derives the
address of the initial salt before its loop, visiting 1 salt. -/
theorem c6_zero_round_size :
    (search_scan_salts 0 0).length = U128_MOD ∧
    (main_scan_salts 0 0).length = 1 := by
  constructor
  · show (0 :: scanLoopSalts 0 (scanIterCount 0)).length = U128_MOD
    rw [List.length_cons, scanLoopSalts_length, scanIterCount_zero]
    have h0 : 0 < U128_MOD := by norm_num [U128_MOD]
    omega
  · rfl

/-- Claim C10: `fmt_dms s` renders `"{d}d{h}h{m}m{sec}s"` with
`d = s / 86400`, `h = (s % 86400) / 3600`, `m = (s % 3600) / 60`,
`sec = s % 60`; the hours, minutes and seconds components are in range and
the four components reconstruct `s` exactly. -/
theorem c10_fmt_dms (s : Nat) :
    fmt_dms s = toString (s / 86400) ++ "d" ++ toString (s % 86400 / 3600) ++ "h" ++
      toString (s % 3600 / 60) ++ "m" ++ toString (s % 60) ++ "s" ∧
    s % 86400 / 3600 < 24 ∧
    s % 3600 / 60 < 60 ∧
    s % 60 < 60 ∧
    (s / 86400) * 86400 + (s % 86400 / 3600) * 3600 + (s % 3600 / 60) * 60 + s % 60 = s := by
  refine ⟨rfl, by omega, by omega, by omega, by omega⟩

/-- Claim C8: whenever the elapsed time rounds to zero milliseconds the
progress report is suppressed by the early return of `log_attempts`, and for
every positive number of elapsed milliseconds exactly one report is
emitted. -/
theorem c8_zero_elapsed_suppressed (round attempt best_zeros : Nat) :
    log_attempts round attempt 0 best_zeros = none ∧
    ∀ elapsed_ms : Nat, 0 < elapsed_ms →
      log_attempts round attempt elapsed_ms best_zeros =
        some { round := round, attempt := attempt, elapsed_ms := elapsed_ms,
               best_zeros := best_zeros } := by
  constructor
  · rfl
  · intro e he
    simp [log_attempts, Nat.pos_iff_ne_zero.mp he]

/-- Witness for C8 at a concrete positive elapsed time. -/
theorem c8_witness :
    log_attempts 3 500 0 4 = none ∧
      log_attempts 3 500 250 4 =
        some { round := 3, attempt := 500, elapsed_ms := 250, best_zeros := 4 } :=
  ⟨(c8_zero_elapsed_suppressed 3 500 4).1,
   (c8_zero_elapsed_suppressed 3 500 4).2 250 (by decide)⟩

/-! ### Leading zero nibbles -/

theorem clzAux_succ (a k : Nat) :
    clzAux a (k + 1) = if a / 16 ^ k % 16 = 0 then 1 + clzAux a k else 0 := rfl

theorem clzAux_le (a : Nat) : ∀ k, clzAux a k ≤ k := by
  intro k
  induction k with
  | zero => exact Nat.le_refl 0
  | succ k ih =>
    rw [clzAux_succ]
    split
    · omega
    · omega

theorem clzAux_ge_iff (a : Nat) : ∀ k j, a < 16 ^ k → j ≤ k →
    (j ≤ clzAux a k ↔ a < 16 ^ (k - j)) := by
  intro k
  induction k with
  | zero =>
    intro j ha hj
    have hj0 : j = 0 := Nat.le_zero.mp hj
    subst hj0
    simp only [Nat.zero_sub]
    exact ⟨fun _ => ha, fun _ => Nat.zero_le _⟩
  | succ k ih =>
    intro j ha hj
    have hpow : 0 < (16:Nat) ^ k := Nat.pos_pow_of_pos k (by norm_num)
    have hdiv : a / 16 ^ k < 16 := by
      apply Nat.div_lt_of_lt_mul
      rw [← pow_succ]
      exact ha
    have hmod : a / 16 ^ k % 16 = a / 16 ^ k := Nat.mod_eq_of_lt hdiv
    rw [clzAux_succ, hmod]
    by_cases h0 : a / 16 ^ k = 0
    · have ha' : a < 16 ^ k := (Nat.div_eq_zero_iff hpow).mp h0
      rw [if_pos h0]
      cases j with
      | zero =>
        simp only [Nat.sub_zero]
        exact ⟨fun _ => ha, fun _ => Nat.zero_le _⟩
      | succ j =>
        have hj' : j ≤ k := Nat.succ_le_succ_iff.mp hj
        have := ih j ha' hj'
        constructor
        · intro hle
          have : j ≤ clzAux a k := by omega
          simpa [Nat.succ_sub_succ] using (ih j ha' hj').mp this
        · intro hlt
          have : j ≤ clzAux a k := (ih j ha' hj').mpr (by simpa [Nat.succ_sub_succ] using hlt)
          omega
    · have hge : 16 ^ k ≤ a := by
        by_contra hcon
        exact h0 (Nat.div_eq_of_lt (by omega))
      rw [if_neg h0]
      cases j with
      | zero =>
        simp only [Nat.sub_zero]
        exact ⟨fun _ => ha, fun _ => Nat.le_refl 0⟩
      | succ j =>
        constructor
        · intro hle; omega
        · intro hlt
          exfalso
          have hle16 : (16:Nat) ^ (k + 1 - (j + 1)) ≤ 16 ^ k :=
            Nat.pow_le_pow_right (by norm_num) (by omega)
          omega

/-- `count_leading_zeroes` is antitone on the 20-byte address range: a
numerically smaller address has at least as many leading zero nibbles. -/
theorem count_leading_zeroes_anti (a b : Nat) (hab : a ≤ b) (hb : b < 16 ^ 40) :
    count_leading_zeroes b ≤ count_leading_zeroes a := by
  have ha : a < 16 ^ 40 := lt_of_le_of_lt hab hb
  have hj : clzAux b 40 ≤ 40 := clzAux_le b 40
  have hb' : b < 16 ^ (40 - clzAux b 40) := (clzAux_ge_iff b 40 (clzAux b 40) hb hj).mp le_rfl
  exact (clzAux_ge_iff a 40 (clzAux b 40) ha hj).mpr (lt_of_le_of_lt hab hb')

/-- Claim C3: the fold performed under the lock replaces the stored best
only by a candidate with a strictly smaller address (on equality — indeed
whenever the incoming address is not strictly smaller — the earlier-found
best is kept), the counters never decrease (within `u128` range), and when
the best changes from `b` to `b₂` the address is non-increasing and the
leading-zero-nibble count non-decreasing. -/
theorem c3_fold_invariant (st : SearcherState) (rs : Nat) (c : AddressSalt)
    (hta : st.total_attempts + rs < U128_MOD) (htr : st.total_rounds + 1 < U128_MOD) :
    ((foldRound st rs c).best ≠ st.best →
        st.best = none ∨ ∃ b, st.best = some b ∧ c.address < b.address) ∧
    (∀ b, st.best = some b → ¬ c.address < b.address → (foldRound st rs c).best = some b) ∧
    st.total_attempts ≤ (foldRound st rs c).total_attempts ∧
    st.total_rounds ≤ (foldRound st rs c).total_rounds ∧
    (∀ b b₂, st.best = some b → (foldRound st rs c).best = some b₂ →
      b₂.address ≤ b.address ∧
      (b.address < 2 ^ 160 →
        count_leading_zeroes b.address ≤ count_leading_zeroes b₂.address)) := by
  have h160 : (2:Nat) ^ 160 = 16 ^ 40 := by norm_num
  refine ⟨?_, ?_, ?_, ?_, ?_⟩
  · intro hne
    cases hb : st.best with
    | none => exact Or.inl rfl
    | some b =>
      refine Or.inr ⟨b, rfl, ?_⟩
      by_contra hlt
      exact hne (by simp [foldRound, updateBest, hb, hlt])
  · intro b hb hlt
    simp [foldRound, updateBest, hb, hlt]
  · show st.total_attempts ≤ (st.total_attempts + rs) % U128_MOD
    rw [Nat.mod_eq_of_lt hta]
    omega
  · show st.total_rounds ≤ (st.total_rounds + 1) % U128_MOD
    rw [Nat.mod_eq_of_lt htr]
    omega
  · intro b b₂ hb hb₂
    have hrw : (foldRound st rs c).best = updateBest st.best c := rfl
    rw [hrw, hb] at hb₂
    by_cases hlt : c.address < b.address
    · have hc : b₂ = c := by
        have := hb₂
        simp only [updateBest, if_pos hlt, Option.some.injEq] at this
        exact this.symm
      subst hc
      refine ⟨le_of_lt hlt, fun hbound => ?_⟩
      exact count_leading_zeroes_anti _ _ (le_of_lt hlt) (h160 ▸ hbound)
    · have hc : b₂ = b := by
        have := hb₂
        simp only [updateBest, if_neg hlt, Option.some.injEq] at this
        exact this.symm
      subst hc
      exact ⟨le_refl _, fun _ => le_refl _⟩

/-- Witness for C3 at a concrete state and candidate: the incoming address
`3` strictly improves on the stored best `10`. -/
theorem c3_witness :
    (((foldRound ⟨some ⟨10, 1⟩, 7, 2⟩ 5 ⟨3, 9⟩).best ≠
        (⟨some ⟨10, 1⟩, 7, 2⟩ : SearcherState).best →
        (⟨some ⟨10, 1⟩, 7, 2⟩ : SearcherState).best = none ∨
          ∃ b, (⟨some ⟨10, 1⟩, 7, 2⟩ : SearcherState).best = some b ∧
            (⟨3, 9⟩ : AddressSalt).address < b.address) ∧
      (∀ b, (⟨some ⟨10, 1⟩, 7, 2⟩ : SearcherState).best = some b →
        ¬ (⟨3, 9⟩ : AddressSalt).address < b.address →
        (foldRound ⟨some ⟨10, 1⟩, 7, 2⟩ 5 ⟨3, 9⟩).best = some b) ∧
      (⟨some ⟨10, 1⟩, 7, 2⟩ : SearcherState).total_attempts ≤
        (foldRound ⟨some ⟨10, 1⟩, 7, 2⟩ 5 ⟨3, 9⟩).total_attempts ∧
      (⟨some ⟨10, 1⟩, 7, 2⟩ : SearcherState).total_rounds ≤
        (foldRound ⟨some ⟨10, 1⟩, 7, 2⟩ 5 ⟨3, 9⟩).total_rounds ∧
      (∀ b b₂, (⟨some ⟨10, 1⟩, 7, 2⟩ : SearcherState).best = some b →
        (foldRound ⟨some ⟨10, 1⟩, 7, 2⟩ 5 ⟨3, 9⟩).best = some b₂ →
        b₂.address ≤ b.address ∧
        (b.address < 2 ^ 160 →
          count_leading_zeroes b.address ≤ count_leading_zeroes b₂.address))) :=
  c3_fold_invariant ⟨some ⟨10, 1⟩, 7, 2⟩ 5 ⟨3, 9⟩
    (by norm_num [U128_MOD]) (by norm_num [U128_MOD])

/-! ### The scanner as a fold over its candidate trace -/

theorem scanLoop_eq_foldl (derive : Nat → Nat → Nat → Nat) (deployer init_code_hash : Nat) :
    ∀ (k salt_n : Nat) (best : AddressSalt),
      scanLoop derive deployer init_code_hash salt_n k best =
        List.foldl pickBest best
          ((scanLoopSalts salt_n k).map
            (fun s => { address := derive deployer s init_code_hash, salt_n := s })) := by
  intro k
  induction k with
  | zero => intro s b; rfl
  | succ k ih =>
    intro s b
    have h1 : scanLoop derive deployer init_code_hash s (k + 1) b =
        scanLoop derive deployer init_code_hash ((s + 1) % U256_MOD) k
          (pickBest b { address := derive deployer ((s + 1) % U256_MOD) init_code_hash,
                        salt_n := (s + 1) % U256_MOD }) := rfl
    have h2 : scanLoopSalts s (k + 1) =
        ((s + 1) % U256_MOD) :: scanLoopSalts ((s + 1) % U256_MOD) k := rfl
    rw [h1, h2, List.map_cons, List.foldl_cons, ih]


theorem scanLoopSalts_closed : ∀ (k salt_n : Nat), salt_n + k < U256_MOD →
    scanLoopSalts salt_n k = (List.range k).map (fun i => salt_n + 1 + i) := by
  intro k
  induction k with
  | zero => intro s _; rfl
  | succ k ih =>
    intro s hs
    have hmod : (s + 1) % U256_MOD = s + 1 := Nat.mod_eq_of_lt (by omega)
    have h2 : scanLoopSalts s (k + 1) =
        ((s + 1) % U256_MOD) :: scanLoopSalts ((s + 1) % U256_MOD) k := rfl
    have h3 : (List.range (k + 1)).map (fun i => s + 1 + i) =
        (s + 1) :: (List.range k).map (fun i => s + 1 + 1 + i) := by
      rw [List.range_succ_eq_map, List.map_cons, List.map_map]
      have hfun : ((fun i => s + 1 + i) ∘ Nat.succ) = fun i => s + 1 + 1 + i := by
        funext i
        simp only [Function.comp_apply]
        omega
      rw [hfun]
    rw [h2, hmod, ih (s + 1) (by omega), h3]

/-- The salts scanned by the `search.rs` scanner over a block of
`round_size ≥ 1` salts starting at `S` (no `U256` overflow) are exactly
`S, S+1, …, S+round_size-1`, in order. -/
theorem search_scan_salts_closed (S rs : Nat) (h1 : 1 ≤ rs) (h2 : rs < U128_MOD)
    (h3 : S + rs ≤ U256_MOD) :
    search_scan_salts S rs = (List.range rs).map (fun i => S + i) := by
  obtain ⟨m, rfl⟩ : ∃ m, rs = m + 1 := ⟨rs - 1, by omega⟩
  have hiter : scanIterCount (m + 1) = m := by
    rw [scanIterCount_of_pos (m + 1) h1 h2]
    omega
  have h4 : (List.range (m + 1)).map (fun i => S + i) =
      S :: (List.range m).map (fun i => S + 1 + i) := by
    rw [List.range_succ_eq_map, List.map_cons, List.map_map]
    have hfun : ((fun i => S + i) ∘ Nat.succ) = fun i => S + 1 + i := by
      funext i
      simp only [Function.comp_apply]
      omega
    rw [hfun]
    norm_num
  rw [search_scan_salts, hiter, scanLoopSalts_closed m S (by omega), h4]


/-- Folding `pickBest` over a candidate list returns the first element of
minimal address: there is a position `i` holding the result, every earlier
element has a strictly larger address, and no element has a smaller one. -/
theorem foldl_pickBest_firstMin :
    ∀ (l : List AddressSalt) (b : AddressSalt),
      ∃ i : Nat, (b :: l)[i]? = some (List.foldl pickBest b l) ∧
        (∀ (j : Nat) (x : AddressSalt), j < i → (b :: l)[j]? = some x →
          (List.foldl pickBest b l).address < x.address) ∧
        (∀ (j : Nat) (x : AddressSalt), (b :: l)[j]? = some x →
          (List.foldl pickBest b l).address ≤ x.address) := by
  intro l
  induction l with
  | nil =>
    intro b
    refine ⟨0, by simp, ?_, ?_⟩
    · intro j x hj _
      omega
    · intro j x hx
      cases j with
      | zero =>
        simp only [List.getElem?_cons_zero, Option.some.injEq] at hx
        subst hx
        exact le_refl _
      | succ j => simp at hx
  | cons c l ih =>
    intro b
    have hfold : List.foldl pickBest b (c :: l) = List.foldl pickBest (pickBest b c) l :=
      List.foldl_cons ..
    by_cases hc : c.address < b.address
    · have hpick : pickBest b c = c := if_pos hc
      obtain ⟨i, ha1, ha2, ha3⟩ := ih c
      rw [hfold, hpick]
      refine ⟨i + 1, ?_, ?_, ?_⟩
      · simpa only [List.getElem?_cons_succ] using ha1
      · intro j x hj hx
        cases j with
        | zero =>
          simp only [List.getElem?_cons_zero, Option.some.injEq] at hx
          subst hx
          exact lt_of_le_of_lt (ha3 0 c (by simp)) hc
        | succ j =>
          simp only [List.getElem?_cons_succ] at hx
          exact ha2 j x (by omega) hx
      · intro j x hx
        cases j with
        | zero =>
          simp only [List.getElem?_cons_zero, Option.some.injEq] at hx
          subst hx
          exact le_of_lt (lt_of_le_of_lt (ha3 0 c (by simp)) hc)
        | succ j =>
          simp only [List.getElem?_cons_succ] at hx
          exact ha3 j x hx
    · have hpick : pickBest b c = b := if_neg hc
      have hbc : b.address ≤ c.address := Nat.le_of_not_lt hc
      obtain ⟨i, ha1, ha2, ha3⟩ := ih b
      rw [hfold, hpick]
      cases i with
      | zero =>
        have hb0 : b = List.foldl pickBest b l := by simpa using ha1
        refine ⟨0, ?_, ?_, ?_⟩
        · simp only [List.getElem?_cons_zero]
          rw [← hb0]
        · intro j x hj _
          omega
        · intro j x hx
          cases j with
          | zero =>
            simp only [List.getElem?_cons_zero, Option.some.injEq] at hx
            subst hx
            exact ha3 0 b (by simp)
          | succ j =>
            cases j with
            | zero =>
              simp only [List.getElem?_cons_succ, List.getElem?_cons_zero,
                Option.some.injEq] at hx
              subst hx
              exact le_trans (ha3 0 b (by simp)) hbc
            | succ j =>
              simp only [List.getElem?_cons_succ] at hx
              exact ha3 (j + 1) x (by simpa only [List.getElem?_cons_succ] using hx)
      | succ i =>
        refine ⟨i + 2, ?_, ?_, ?_⟩
        · simpa only [List.getElem?_cons_succ] using ha1
        · intro j x hj hx
          cases j with
          | zero =>
            simp only [List.getElem?_cons_zero, Option.some.injEq] at hx
            subst hx
            exact ha2 0 b (by omega) (by simp)
          | succ j =>
            cases j with
            | zero =>
              simp only [List.getElem?_cons_succ, List.getElem?_cons_zero,
                Option.some.injEq] at hx
              subst hx
              exact lt_of_lt_of_le (ha2 0 b (by omega) (by simp)) hbc
            | succ j =>
              simp only [List.getElem?_cons_succ] at hx
              exact ha2 (j + 1) x (by omega) (by simpa only [List.getElem?_cons_succ] using hx)
        · intro j x hx
          cases j with
          | zero =>
            simp only [List.getElem?_cons_zero, Option.some.injEq] at hx
            subst hx
            exact ha3 0 b (by simp)
          | succ j =>
            cases j with
            | zero =>
              simp only [List.getElem?_cons_succ, List.getElem?_cons_zero,
                Option.some.injEq] at hx
              subst hx
              exact le_trans (ha3 0 b (by simp)) hbc
            | succ j =>
              simp only [List.getElem?_cons_succ] at hx
              exact ha3 (j + 1) x (by simpa only [List.getElem?_cons_succ] using hx)

/-- Claim C1: for `round_size ≥ 1` (and no `U256` overflow of the block),
the `search.rs` scanner `Searcher::search_create2_addresses` derives the
addresses of exactly the `round_size` consecutive salts
`S, S+1, …, S+round_size-1`, each exactly once, and returns the candidate
whose derived address is numerically smallest, keeping the first
(lowest-salt) candidate on ties.  The `main.rs` scanner violates the claim:
its loop `for _i in 0..*limit` runs `round_size` more times after the
initial evaluation, so for `round_size = 1` it derives the addresses of 2
salts instead of 1 (final conjunct). -/
theorem c1_round_scanner (derive : Nat → Nat → Nat → Nat) (p : SearchParams)
    (h1 : 1 ≤ p.round_size) (h2 : p.round_size < U128_MOD)
    (h3 : p.initial_salt_n + p.round_size ≤ U256_MOD) :
    search_scan_salts p.initial_salt_n p.round_size =
      (List.range p.round_size).map (fun i => p.initial_salt_n + i) ∧
    (search_scan_salts p.initial_salt_n p.round_size).Nodup ∧
    (∃ i : Nat,
      (scanCands derive p.deployer p.init_code_hash p.initial_salt_n p.round_size)[i]? =
        some (search_create2_addresses derive p) ∧
      (∀ (j : Nat) (x : AddressSalt), j < i →
        (scanCands derive p.deployer p.init_code_hash p.initial_salt_n p.round_size)[j]? =
          some x →
        (search_create2_addresses derive p).address < x.address) ∧
      (∀ (j : Nat) (x : AddressSalt),
        (scanCands derive p.deployer p.init_code_hash p.initial_salt_n p.round_size)[j]? =
          some x →
        (search_create2_addresses derive p).address ≤ x.address)) ∧
    (main_scan_salts 0 1).length = 2 := by
  have hcov := search_scan_salts_closed p.initial_salt_n p.round_size h1 h2 h3
  have hmain : (main_scan_salts 0 1).length = 2 := by
    show (0 :: scanLoopSalts 0 1).length = 2
    rw [List.length_cons, scanLoopSalts_length]
  refine ⟨hcov, ?_, ?_, hmain⟩
  · rw [hcov]
    exact (List.nodup_range p.round_size).map (fun a b hab => by omega)
  · have heq : search_create2_addresses derive p =
        List.foldl pickBest
          { address := derive p.deployer p.initial_salt_n p.init_code_hash,
            salt_n := p.initial_salt_n }
          ((scanLoopSalts p.initial_salt_n (scanIterCount p.round_size)).map
            (fun s => { address := derive p.deployer s p.init_code_hash, salt_n := s })) :=
      scanLoop_eq_foldl derive p.deployer p.init_code_hash (scanIterCount p.round_size)
        p.initial_salt_n
        { address := derive p.deployer p.initial_salt_n p.init_code_hash,
          salt_n := p.initial_salt_n }
    have hcands : scanCands derive p.deployer p.init_code_hash p.initial_salt_n p.round_size =
        { address := derive p.deployer p.initial_salt_n p.init_code_hash,
          salt_n := p.initial_salt_n } ::
          ((scanLoopSalts p.initial_salt_n (scanIterCount p.round_size)).map
            (fun s => { address := derive p.deployer s p.init_code_hash, salt_n := s })) := by
      rw [scanCands]
      rw [search_scan_salts]
      rw [List.map_cons]
    rw [heq, hcands]
    exact foldl_pickBest_firstMin _ _

/-- Witness for C1 at `round_size = 2`, starting salt `3`, constant zero
deriver. -/
theorem c1_witness :
    search_scan_salts 3 2 = (List.range 2).map (fun i => 3 + i) ∧
    (search_scan_salts 3 2).Nodup ∧
    (∃ i : Nat, (scanCands (fun _ _ _ => 0) 7 9 3 2)[i]? =
        some (search_create2_addresses (fun _ _ _ => 0) ⟨7, 3, 9, 2, 1⟩) ∧
      (∀ (j : Nat) (x : AddressSalt), j < i →
        (scanCands (fun _ _ _ => 0) 7 9 3 2)[j]? = some x →
        (search_create2_addresses (fun _ _ _ => 0) ⟨7, 3, 9, 2, 1⟩).address < x.address) ∧
      (∀ (j : Nat) (x : AddressSalt),
        (scanCands (fun _ _ _ => 0) 7 9 3 2)[j]? = some x →
        (search_create2_addresses (fun _ _ _ => 0) ⟨7, 3, 9, 2, 1⟩).address ≤ x.address)) ∧
    (main_scan_salts 0 1).length = 2 :=
  c1_round_scanner (fun _ _ _ => 0) ⟨7, 3, 9, 2, 1⟩ (by norm_num)
    (by norm_num [U128_MOD]) (by norm_num [U256_MOD])

/-! ### Order (in)dependence of the fold -/

theorem updateBest_some_addr (b c : AddressSalt) :
    (updateBest (some b) c).map AddressSalt.address = some (min b.address c.address) := by
  simp only [updateBest]
  by_cases h : c.address < b.address
  · rw [if_pos h]
    show some c.address = some (min b.address c.address)
    congr 1
    omega
  · rw [if_neg h]
    show some b.address = some (min b.address c.address)
    congr 1
    omega

theorem updateBest_some_exists (b c : AddressSalt) :
    ∃ d, updateBest (some b) c = some d ∧ d.address = min b.address c.address := by
  by_cases h : c.address < b.address
  · exact ⟨c, by simp [updateBest, h], by omega⟩
  · exact ⟨b, by simp [updateBest, h], by omega⟩

theorem updateBest_addr_congr (B₁ B₂ : Option AddressSalt) (c : AddressSalt)
    (h : B₁.map AddressSalt.address = B₂.map AddressSalt.address) :
    (updateBest B₁ c).map AddressSalt.address = (updateBest B₂ c).map AddressSalt.address := by
  cases B₁ with
  | none =>
    cases B₂ with
    | none => rfl
    | some b₂ => simp at h
  | some b₁ =>
    cases B₂ with
    | none => simp at h
    | some b₂ =>
      have hab : b₁.address = b₂.address := by simpa using h
      rw [updateBest_some_addr, updateBest_some_addr, hab]

theorem foldRound_equiv_congr (s₁ s₂ : SearcherState) (rs : Nat) (c : AddressSalt)
    (h : stateEquiv s₁ s₂) : stateEquiv (foldRound s₁ rs c) (foldRound s₂ rs c) := by
  obtain ⟨hb, hta, htr⟩ := h
  refine ⟨updateBest_addr_congr _ _ c hb, ?_, ?_⟩
  · show (s₁.total_attempts + rs) % U128_MOD = (s₂.total_attempts + rs) % U128_MOD
    rw [hta]
  · show (s₁.total_rounds + 1) % U128_MOD = (s₂.total_rounds + 1) % U128_MOD
    rw [htr]

/-- Two consecutive folds commute up to `stateEquiv`: the counters agree
exactly and the best's address agrees (the best's salt may differ when the
two candidates tie on address). -/
theorem foldRound_swap (st : SearcherState) (rs : Nat) (x y : AddressSalt) :
    stateEquiv (foldRound (foldRound st rs x) rs y) (foldRound (foldRound st rs y) rs x) := by
  refine ⟨?_, rfl, rfl⟩
  show (updateBest (updateBest st.best x) y).map AddressSalt.address =
    (updateBest (updateBest st.best y) x).map AddressSalt.address
  cases st.best with
  | none =>
    show (updateBest (some x) y).map AddressSalt.address =
      (updateBest (some y) x).map AddressSalt.address
    rw [updateBest_some_addr, updateBest_some_addr]
    congr 1
    omega
  | some b =>
    obtain ⟨dx, hdx, hdxa⟩ := updateBest_some_exists b x
    obtain ⟨dy, hdy, hdya⟩ := updateBest_some_exists b y
    rw [hdx, hdy, updateBest_some_addr, updateBest_some_addr, hdxa, hdya]
    congr 1
    omega

theorem foldRounds_equiv_congr (rs : Nat) (l : List AddressSalt) :
    ∀ s₁ s₂, stateEquiv s₁ s₂ →
      stateEquiv (l.foldl (fun st c => foldRound st rs c) s₁)
        (l.foldl (fun st c => foldRound st rs c) s₂) := by
  induction l with
  | nil => intro s₁ s₂ h; exact h
  | cons c l ih => intro s₁ s₂ h; exact ih _ _ (foldRound_equiv_congr _ _ rs c h)

theorem foldRounds_perm (rs : Nat) {l₁ l₂ : List AddressSalt} (h : l₁.Perm l₂) :
    ∀ st, stateEquiv (l₁.foldl (fun s c => foldRound s rs c) st)
      (l₂.foldl (fun s c => foldRound s rs c) st) := by
  induction h with
  | nil => intro st; exact stateEquiv_refl _
  | cons x h ih => intro st; exact ih _
  | swap x y l => intro st; exact foldRounds_equiv_congr rs l _ _ (foldRound_swap st rs y x)
  | trans h₁ h₂ ih₁ ih₂ => intro st; exact stateEquiv_trans (ih₁ st) (ih₂ st)

/-- Counterexample to claim C2 as stated: folding the same two round
results (equal addresses `0`, different salts `1` and `2`) in the two
completion orders leaves different final `best` candidates — on an address
tie the first-folded round's candidate is kept, so the final best (its
salt) depends on fold order. -/
theorem c2_counterexample :
    ([⟨0, 1⟩, ⟨0, 2⟩] : List AddressSalt).foldl (fun s c => foldRound s 5 c) Searcher.new ≠
      ([⟨0, 2⟩, ⟨0, 1⟩] : List AddressSalt).foldl (fun s c => foldRound s 5 c) Searcher.new := by
  decide

/-- Claim C2 (amended): folding a multiset of round results in any
permutation of completion order yields the same counters and the same best
address; the full best candidate is only order-independent up to address
ties (see the counterexample). -/
theorem c2_fold_order_address (rs : Nat) (l₁ l₂ : List AddressSalt) (h : l₁.Perm l₂)
    (st : SearcherState) :
    bestAddress (l₁.foldl (fun s c => foldRound s rs c) st) =
      bestAddress (l₂.foldl (fun s c => foldRound s rs c) st) ∧
    (l₁.foldl (fun s c => foldRound s rs c) st).total_attempts =
      (l₂.foldl (fun s c => foldRound s rs c) st).total_attempts ∧
    (l₁.foldl (fun s c => foldRound s rs c) st).total_rounds =
      (l₂.foldl (fun s c => foldRound s rs c) st).total_rounds :=
  foldRounds_perm rs h st

/-- Witness for C2 (amended) on a concrete two-element permutation. -/
theorem c2_witness :
    bestAddress (([⟨5, 1⟩, ⟨3, 2⟩] : List AddressSalt).foldl
        (fun s c => foldRound s 4 c) Searcher.new) =
      bestAddress (([⟨3, 2⟩, ⟨5, 1⟩] : List AddressSalt).foldl
        (fun s c => foldRound s 4 c) Searcher.new) ∧
    (([⟨5, 1⟩, ⟨3, 2⟩] : List AddressSalt).foldl
        (fun s c => foldRound s 4 c) Searcher.new).total_attempts =
      (([⟨3, 2⟩, ⟨5, 1⟩] : List AddressSalt).foldl
        (fun s c => foldRound s 4 c) Searcher.new).total_attempts ∧
    (([⟨5, 1⟩, ⟨3, 2⟩] : List AddressSalt).foldl
        (fun s c => foldRound s 4 c) Searcher.new).total_rounds =
      (([⟨3, 2⟩, ⟨5, 1⟩] : List AddressSalt).foldl
        (fun s c => foldRound s 4 c) Searcher.new).total_rounds :=
  c2_fold_order_address 4 [⟨5, 1⟩, ⟨3, 2⟩] [⟨3, 2⟩, ⟨5, 1⟩]
    (List.Perm.swap (⟨3, 2⟩ : AddressSalt) (⟨5, 1⟩ : AddressSalt) []) Searcher.new

/-! ### Counters over a whole run -/

theorem search_counters (derive : Nat → Nat → Nat → Nat) (p : SearchParams) :
    ∀ (n : Nat) (st : SearcherState),
      st.total_rounds < U128_MOD → st.total_attempts < U128_MOD →
      ((List.range n).foldl (fun st round => (Searcher.search_round derive p round st).1)
          st).total_rounds = (st.total_rounds + n) % U128_MOD ∧
      ((List.range n).foldl (fun st round => (Searcher.search_round derive p round st).1)
          st).total_attempts = (st.total_attempts + n * p.round_size) % U128_MOD := by
  intro n
  induction n with
  | zero =>
    intro st h1 h2
    constructor
    · show st.total_rounds = (st.total_rounds + 0) % U128_MOD
      rw [Nat.add_zero, Nat.mod_eq_of_lt h1]
    · show st.total_attempts = (st.total_attempts + 0 * p.round_size) % U128_MOD
      rw [Nat.zero_mul, Nat.add_zero, Nat.mod_eq_of_lt h2]
  | succ n ih =>
    intro st h1 h2
    obtain ⟨ihr, iha⟩ := ih st h1 h2
    rw [List.range_succ, List.foldl_append, List.foldl_cons, List.foldl_nil]
    constructor
    · show (((List.range n).foldl
          (fun st round => (Searcher.search_round derive p round st).1) st).total_rounds + 1) %
            U128_MOD = (st.total_rounds + (n + 1)) % U128_MOD
      rw [ihr, Nat.mod_add_mod, Nat.add_assoc]
    · show (((List.range n).foldl
          (fun st round => (Searcher.search_round derive p round st).1) st).total_attempts +
            p.round_size) % U128_MOD = (st.total_attempts + (n + 1) * p.round_size) % U128_MOD
      rw [iha, Nat.mod_add_mod, Nat.succ_mul, Nat.add_assoc]

/-- Claim C4: for the `search.rs` engine (counters initialised to zero by
`Searcher::new`), a complete run of `num_rounds` rounds of `round_size`
attempts each ends with `total_attempts = num_rounds * round_size` and
`total_rounds = num_rounds` (exactly, within `u128` range).  The `main.rs`
binary violates the claim: it seeds `total_attempts` to `1` for its
bootstrap scan (line 280), so one round of `round_size = 5` ends with
`total_attempts = 6`, not `5` (final conjunct). -/
theorem c4_counter_exactness (derive : Nat → Nat → Nat → Nat) (p : SearchParams)
    (h1 : p.num_rounds < U128_MOD) (h2 : p.num_rounds * p.round_size < U128_MOD) :
    ((Searcher.search derive p).1.total_attempts = p.num_rounds * p.round_size ∧
     (Searcher.search derive p).1.total_rounds = p.num_rounds) ∧
    (main_run (fun _ _ _ => 0) ⟨0, 0, 0, 5⟩ 1).total_attempts = 6 := by
  have h0r : Searcher.new.total_rounds = 0 := rfl
  have h0a : Searcher.new.total_attempts = 0 := rfl
  have hM : 0 < U128_MOD := by norm_num [U128_MOD]
  obtain ⟨htr, hta⟩ := search_counters derive p p.num_rounds Searcher.new
    (by rw [h0r]; omega) (by rw [h0a]; omega)
  rw [h0r, Nat.zero_add] at htr
  rw [h0a, Nat.zero_add] at hta
  refine ⟨⟨?_, ?_⟩, ?_⟩
  · show ((List.range p.num_rounds).foldl
        (fun st round => (Searcher.search_round derive p round st).1)
        Searcher.new).total_attempts = p.num_rounds * p.round_size
    rw [hta, Nat.mod_eq_of_lt h2]
  · show ((List.range p.num_rounds).foldl
        (fun st round => (Searcher.search_round derive p round st).1)
        Searcher.new).total_rounds = p.num_rounds
    rw [htr, Nat.mod_eq_of_lt h1]
  · rfl

/-- Witness for C4: two rounds of three attempts each give exactly counters
`(6, 2)` for the `search.rs` engine. -/
theorem c4_witness :
    ((Searcher.search (fun _ _ _ => 0) ⟨0, 0, 0, 3, 2⟩).1.total_attempts = 2 * 3 ∧
     (Searcher.search (fun _ _ _ => 0) ⟨0, 0, 0, 3, 2⟩).1.total_rounds = 2) ∧
    (main_run (fun _ _ _ => 0) ⟨0, 0, 0, 5⟩ 1).total_attempts = 6 :=
  c4_counter_exactness (fun _ _ _ => 0) ⟨0, 0, 0, 3, 2⟩
    (by norm_num [U128_MOD]) (by norm_num [U128_MOD])

/-- Claim C5: the first salt scanned by round `r` is
`initial_salt + round_size * r` (below the `U256` overflow, where the
source would panic), a pure function of `r` and the parameters only, for
both engine variants. -/
theorem c5_round_offset (p : SearchParams) (r : Nat)
    (h : p.initial_salt_n + p.round_size * r < U256_MOD) :
    round_salt_n p.initial_salt_n p.round_size r = p.initial_salt_n + p.round_size * r ∧
    (search_round_salts p r).head? = some (p.initial_salt_n + p.round_size * r) ∧
    (main_search_round_salts ⟨p.deployer, p.initial_salt_n, p.init_code_hash, p.round_size⟩
        r).head? = some (p.initial_salt_n + p.round_size * r) := by
  have h1 : round_salt_n p.initial_salt_n p.round_size r =
      p.initial_salt_n + p.round_size * r := Nat.mod_eq_of_lt h
  have e1 : (search_round_salts p r).head? =
      some (round_salt_n p.initial_salt_n p.round_size r) := rfl
  have e2 : (main_search_round_salts ⟨p.deployer, p.initial_salt_n, p.init_code_hash,
      p.round_size⟩ r).head? = some (round_salt_n p.initial_salt_n p.round_size r) := rfl
  rw [h1] at e1 e2
  exact ⟨h1, e1, e2⟩

/-- Witness for C5 at round 3 with round size 10 and starting salt 100. -/
theorem c5_witness :
    round_salt_n 100 10 3 = 100 + 10 * 3 ∧
    (search_round_salts ⟨1, 100, 2, 10, 4⟩ 3).head? = some (100 + 10 * 3) ∧
    (main_search_round_salts ⟨1, 100, 2, 10⟩ 3).head? = some (100 + 10 * 3) :=
  c5_round_offset ⟨1, 100, 2, 10, 4⟩ 3 (by norm_num [U256_MOD])

/-! ### Zero rounds -/

theorem foldRound_best_isSome (st : SearcherState) (rs : Nat) (c : AddressSalt) :
    (foldRound st rs c).best.isSome := by
  show (updateBest st.best c).isSome
  cases st.best with
  | none => rfl
  | some b =>
    show (if c.address < b.address then some c else some b).isSome
    split
    · rfl
    · rfl

theorem search_round_fst (derive : Nat → Nat → Nat → Nat) (p : SearchParams)
    (round : Nat) (st : SearcherState) :
    (Searcher.search_round derive p round st).1 =
      foldRound st p.round_size
        (search_create2_addresses derive
          { p with initial_salt_n := round_salt_n p.initial_salt_n p.round_size round }) := rfl

theorem foldl_rounds_best_isSome (derive : Nat → Nat → Nat → Nat) (p : SearchParams) :
    ∀ (l : List Nat) (st : SearcherState), l ≠ [] →
      ((l.foldl (fun st round => (Searcher.search_round derive p round st).1) st).best).isSome := by
  intro l
  induction l with
  | nil => intro st h; exact absurd rfl h
  | cons r l ih =>
    intro st _
    cases l with
    | nil =>
      show ((Searcher.search_round derive p r st).1.best).isSome
      rw [search_round_fst derive p r st]
      exact foldRound_best_isSome st p.round_size
        (search_create2_addresses derive
          { p with initial_salt_n := round_salt_n p.initial_salt_n p.round_size r })
    | cons r2 l2 =>
      show ((List.foldl (fun st round => (Searcher.search_round derive p round st).1)
          ((Searcher.search_round derive p r st).1) (r2 :: l2)).best).isSome
      exact ih ((Searcher.search_round derive p r st).1) (List.cons_ne_nil r2 l2)

/-- Claim C9: `Searcher::search` returns a candidate only under the
precondition `num_rounds ≥ 1`: with `num_rounds = 0` no round is folded,
the shared state stays exactly `Searcher::new` (best `None`, counters 0),
and the final `unwrap` of the best panics (modelled by `none`). -/
theorem c9_zero_rounds (derive : Nat → Nat → Nat → Nat) (p : SearchParams)
    (_hrs : 1 ≤ p.round_size) :
    ((Searcher.search derive p).2 = none ↔ p.num_rounds = 0) ∧
    (p.num_rounds = 0 → (Searcher.search derive p).1 = Searcher.new) := by
  constructor
  · constructor
    · intro hnone
      by_contra hnz
      have hne : List.range p.num_rounds ≠ [] :=
        List.length_pos.mp (by rw [List.length_range]; omega)
      have hsome := foldl_rounds_best_isSome derive p (List.range p.num_rounds)
        Searcher.new hne
      have h2 : (Searcher.search derive p).2 =
          ((List.range p.num_rounds).foldl
            (fun st round => (Searcher.search_round derive p round st).1)
            Searcher.new).best := rfl
      rw [h2] at hnone
      rw [hnone] at hsome
      simp at hsome
    · intro h0
      show ((List.range p.num_rounds).foldl
          (fun st round => (Searcher.search_round derive p round st).1)
          Searcher.new).best = none
      rw [h0]
      rfl
  · intro h0
    show ((List.range p.num_rounds).foldl
        (fun st round => (Searcher.search_round derive p round st).1)
        Searcher.new) = Searcher.new
    rw [h0]
    rfl

/-- Witness for C9 at `num_rounds = 0`, `round_size = 1`. -/
theorem c9_witness :
    ((Searcher.search (fun _ _ _ => 0) ⟨0, 0, 0, 1, 0⟩).2 = none ↔ (0 : Nat) = 0) ∧
    ((0 : Nat) = 0 → (Searcher.search (fun _ _ _ => 0) ⟨0, 0, 0, 1, 0⟩).1 = Searcher.new) :=
  c9_zero_rounds (fun _ _ _ => 0) ⟨0, 0, 0, 1, 0⟩ (by norm_num)
